import Mathlib

/-!
Verification of the layer-wise progressive vectorization controller
(`pair/Layerwise/evenodd.py`) against its natural-language specification.

The Python source is shallowly embedded: tensors become functions
`ℕ → ℚ` (or `ℕ → ℕ → ℚ` for 2-D maps, with real numbers only where the
source computes an exact square root), lists of shapes become Lean lists,
and the external libraries (`torch`, `pydiffvg`, `random`) are modelled by
explicit functional parameters.  Each definition's doc comment names the
source lines it embeds.
-/

/-- `torch.clamp_(0.0, 1.0)` on a single scalar (evenodd.py line 307). -/
def clampQ (x : ℚ) : ℚ := max 0 (min 1 x)

/-- Start of the `i`-th adaptive-pooling region when pooling an axis of
length `I` down (or up) to `O` cells: `floor (i*I/O)`, as in
`torch.nn.functional.adaptive_avg_pool2d`. -/
def poolStart (I O i : ℕ) : ℕ := i * I / O

/-- End (exclusive) of the `i`-th adaptive-pooling region:
`ceil ((i+1)*I/O)`. -/
def poolEnd (I O i : ℕ) : ℕ := ((i + 1) * I + O - 1) / O

/-- The index set of the `i`-th adaptive-pooling region. -/
def poolRegion (I O i : ℕ) : Finset ℕ := Finset.Ico (poolStart I O i) (poolEnd I O i)

/-- `adaptive_avg_pool2d` (evenodd.py lines 125, 318) and
`F.interpolate(·, mode='area')` (line 322, which is average pooling):
output cell `(i,j)` is the mean of the input over the product of the two
1-D pooling regions.  Polymorphic so it can be used over `ℚ` and `ℝ`. -/
def adaptive_avg_pool2d {α : Type} [LinearOrderedField α]
    (H W oh ow : ℕ) (f : ℕ → ℕ → α) (i j : ℕ) : α :=
  (∑ r ∈ poolRegion H oh i, ∑ c ∈ poolRegion W ow j, f r c) /
    (((poolRegion H oh i).card * (poolRegion W ow j).card : ℕ) : α)

/-- The shape-group ids created by one call of `init_new_paths`
(evenodd.py line 179): the group of the `i`-th new path references the
single shape id `num_old_shapes + i`. -/
def newGroupIds (nOld k : ℕ) : List ℕ := (List.range k).map (fun i => nOld + i)

/-- One stage's effect on the scene bookkeeping (evenodd.py lines 240-241,
258-259): the shape count grows by `k` and the group list is extended with
the `k` new singleton groups, offset by the old shape count. -/
def sceneAfterStage (st : ℕ × List ℕ) (k : ℕ) : ℕ × List ℕ :=
  (st.1 + k, st.2 ++ newGroupIds st.1 k)

/-- The scene bookkeeping after running all stages of `num_paths_list`
(evenodd.py lines 230, 235-259, 313-314), starting from the empty scene. -/
def sceneAfterStages (l : List ℕ) : ℕ × List ℕ := l.foldl sceneAfterStage (0, [])

lemma newGroupIds_eq_range' (n k : ℕ) :
    newGroupIds n k = (List.range k).map (· + n) := by
  unfold newGroupIds
  exact List.map_congr_left (fun i _ => Nat.add_comm n i)

lemma sceneAfterStages_from (l : List ℕ) (n : ℕ) :
    l.foldl sceneAfterStage (n, List.range n) =
      (n + l.sum, List.range (n + l.sum)) := by
  induction l generalizing n with
  | nil => simp
  | cons k rest ih =>
      have hstep : sceneAfterStage (n, List.range n) k =
          (n + k, List.range (n + k)) := by
        unfold sceneAfterStage
        simp only [newGroupIds_eq_range', List.range_add, Prod.mk.injEq, true_and]
        exact congrArg (List.range n ++ ·)
          (List.map_congr_left fun x _ => Nat.add_comm x n)
      simp only [List.foldl_cons, hstep, ih, List.sum_cons]
      rw [Nat.add_assoc]

lemma sceneAfterStages_eq (l : List ℕ) :
    sceneAfterStages l = (l.sum, List.range l.sum) := by
  have := sceneAfterStages_from l 0
  simpa [sceneAfterStages] using this

/-- C1: after each stage the shape count grows by exactly that stage's
`num_paths` entry; the group created for the `i`-th new path references
exactly the single shape id `old count + i`; and after any sequence of
stages the concatenated group ids are exactly `0, …, count-1`, hence all
in bounds and pairwise distinct across groups. -/
theorem stage_shape_group_invariant (l : List ℕ) (k n i : ℕ) (hik : i < k) :
    (sceneAfterStages (l ++ [k])).1 = (sceneAfterStages l).1 + k ∧
    (newGroupIds n k).getD i 0 = n + i ∧
    (sceneAfterStages l).2 = List.range (sceneAfterStages l).1 ∧
    (∀ g ∈ (sceneAfterStages l).2, g < (sceneAfterStages l).1) ∧
    (sceneAfterStages l).2.Nodup := by
  refine ⟨?_, ?_, ?_, ?_, ?_⟩
  · simp [sceneAfterStages_eq]
  · unfold newGroupIds
    rw [List.getD_eq_getElem?_getD]
    simp [List.getElem?_map, List.getElem?_range, hik]
  · simp [sceneAfterStages_eq]
  · intro g hg
    rw [sceneAfterStages_eq] at hg ⊢
    simpa using List.mem_range.mp (by simpa using hg)
  · rw [sceneAfterStages_eq]
    exact List.nodup_range _

/-- Concrete instantiation of `stage_shape_group_invariant`: a run with
stages `[2, 3]`, then a stage of 3 new paths on top of 2 old shapes. -/
theorem stage_shape_group_invariant_witness :
    (1 < 3) ∧
    ((sceneAfterStages ([2, 3] ++ [3])).1 = (sceneAfterStages [2, 3]).1 + 3 ∧
    (newGroupIds 2 3).getD 1 0 = 2 + 1 ∧
    (sceneAfterStages [2, 3]).2 = List.range (sceneAfterStages [2, 3]).1 ∧
    (∀ g ∈ (sceneAfterStages [2, 3]).2, g < (sceneAfterStages [2, 3]).1) ∧
    (sceneAfterStages [2, 3]).2.Nodup) :=
  ⟨by decide, stage_shape_group_invariant [2, 3] 3 2 1 (by decide)⟩

/-- The index set of parameters handed to the stage's two Adam optimizers
(evenodd.py lines 242-266): new-shape parameters always; prior-stage
parameters only when `--free` is set.  Shape `i` of the stage occupies
index `nOld + i` after the concatenation of lines 258-259. -/
def stageParamIdx (free : Bool) (nOld nNew : ℕ) : List ℕ :=
  (if free then List.range nOld else []) ++ (List.range nNew).map (fun i => nOld + i)

/-- An optimizer step (`points_optim.step()` / `color_optim.step()`,
lines 300-301) mutates exactly the parameters in its parameter list `S`;
everything else is untouched.  `upd` is the (arbitrary) Adam update. -/
def optimApply (S : List ℕ) (upd : ℕ → ℚ → ℚ) (xs : ℕ → ℚ) : ℕ → ℚ :=
  fun k => if k ∈ S then upd k (xs k) else xs k

/-- One optimizer iteration's parameter effect (lines 300-307): step both
optimizers on their parameter sets, then clamp every group's fill color —
old and new alike — into `[0,1]` (hard projection, lines 306-307).
State: (per-shape point parameters, per-group color parameters). -/
def stageIterStep (free : Bool) (nOld nNew : ℕ) (updP updC : ℕ → ℚ → ℚ)
    (s : (ℕ → ℚ) × (ℕ → ℚ)) : (ℕ → ℚ) × (ℕ → ℚ) :=
  (optimApply (stageParamIdx free nOld nNew) updP s.1,
   fun k => clampQ (optimApply (stageParamIdx free nOld nNew) updC s.2 k))

/-- `T` optimizer iterations of one stage (the loop of lines 273-307),
with iteration-indexed updates (the schedulers of lines 303-304 make the
update depend on `t`). -/
def stageOptimize (free : Bool) (nOld nNew : ℕ) (updP updC : ℕ → ℕ → ℚ → ℚ) :
    ℕ → (ℕ → ℚ) × (ℕ → ℚ) → (ℕ → ℚ) × (ℕ → ℚ)
  | 0, s => s
  | Nat.succ t, s => stageIterStep free nOld nNew (updP t) (updC t)
      (stageOptimize free nOld nNew updP updC t s)

lemma clampQ_nonneg (x : ℚ) : 0 ≤ clampQ x := le_max_left 0 _

lemma clampQ_le_one (x : ℚ) : clampQ x ≤ 1 :=
  max_le (by norm_num) (min_le_left 1 x)

lemma clampQ_eq_self {x : ℚ} (h0 : 0 ≤ x) (h1 : x ≤ 1) : clampQ x = x := by
  unfold clampQ
  rw [min_eq_right h1, max_eq_right h0]

/-- C6: after every optimizer iteration (any positive number of completed
iterations `t+1`, any stage, any Adam updates), every fill-color channel
of every group in the scene lies in `[0,1]`: the clamp performed after the
gradient step is a hard projection into the box. -/
theorem fill_color_clamped_after_step (free : Bool) (nOld nNew : ℕ)
    (updP updC : ℕ → ℕ → ℚ → ℚ) (t : ℕ) (s : (ℕ → ℚ) × (ℕ → ℚ)) (k : ℕ) :
    0 ≤ (stageOptimize free nOld nNew updP updC (t + 1) s).2 k ∧
    (stageOptimize free nOld nNew updP updC (t + 1) s).2 k ≤ 1 := by
  show 0 ≤ clampQ _ ∧ clampQ _ ≤ 1
  exact ⟨clampQ_nonneg _, clampQ_le_one _⟩

lemma not_mem_stageParamIdx_frozen {nOld nNew k : ℕ} (hk : k < nOld) :
    k ∉ stageParamIdx false nOld nNew := by
  unfold stageParamIdx
  simp only [if_neg Bool.false_ne_true, List.nil_append, List.mem_map,
    List.mem_range]
  rintro ⟨i, -, rfl⟩
  omega

/-- C7: in frozen mode every prior-stage shape index is excluded from the
stage optimizers' parameter set and both its point and color parameters
are numerically identical before and after the whole stage (the color
survives the per-iteration clamp because it already lies in `[0,1]`,
having been clamped by its own stage); in free mode prior-stage indices
are members of the parameter set. -/
theorem freeze_semantics (nOld nNew T : ℕ) (updP updC : ℕ → ℕ → ℚ → ℚ)
    (pts cols : ℕ → ℚ)
    (hcol : ∀ k, k < nOld → 0 ≤ cols k ∧ cols k ≤ 1) :
    (∀ k, k < nOld →
      k ∉ stageParamIdx false nOld nNew ∧
      (stageOptimize false nOld nNew updP updC T (pts, cols)).1 k = pts k ∧
      (stageOptimize false nOld nNew updP updC T (pts, cols)).2 k = cols k) ∧
    (∀ k, k < nOld → k ∈ stageParamIdx true nOld nNew) := by
  constructor
  · intro k hk
    refine ⟨not_mem_stageParamIdx_frozen hk, ?_⟩
    induction T with
    | zero => exact ⟨rfl, rfl⟩
    | succ t ih =>
        obtain ⟨ih1, ih2⟩ := ih
        constructor
        · show optimApply (stageParamIdx false nOld nNew) (updP t) _ k = pts k
          unfold optimApply
          rw [if_neg (not_mem_stageParamIdx_frozen hk)]
          exact ih1
        · show clampQ (optimApply (stageParamIdx false nOld nNew) (updC t) _ k)
            = cols k
          unfold optimApply
          rw [if_neg (not_mem_stageParamIdx_frozen hk), ih2,
            clampQ_eq_self (hcol k hk).1 (hcol k hk).2]
  · intro k hk
    unfold stageParamIdx
    rw [if_pos rfl]
    exact List.mem_append_left _ (List.mem_range.mpr hk)

/-- Concrete instantiation of `freeze_semantics`: one old shape with color
`1/2`, one new shape, two iterations, updates that add `3` each step. -/
theorem freeze_semantics_witness :
    (∀ k, k < 1 → 0 ≤ (fun _ => (1 : ℚ)/2) k ∧ (fun _ => (1 : ℚ)/2) k ≤ 1) ∧
    ((∀ k, k < 1 →
      k ∉ stageParamIdx false 1 1 ∧
      (stageOptimize false 1 1 (fun _ _ x => x + 3) (fun _ _ x => x + 3) 2
        ((fun _ => 0), (fun _ => (1 : ℚ)/2))).1 k = (fun _ => (0 : ℚ)) k ∧
      (stageOptimize false 1 1 (fun _ _ x => x + 3) (fun _ _ x => x + 3) 2
        ((fun _ => 0), (fun _ => (1 : ℚ)/2))).2 k = (fun _ => (1 : ℚ)/2) k) ∧
    (∀ k, k < 1 → k ∈ stageParamIdx true 1 1)) :=
  ⟨fun _ _ => ⟨by norm_num, by norm_num⟩,
   freeze_semantics 1 1 2 (fun _ _ x => x + 3) (fun _ _ x => x + 3)
     (fun _ => 0) (fun _ => (1 : ℚ)/2)
     (fun _ _ => ⟨by norm_num, by norm_num⟩)⟩

/-- The literal per-stage optimization loop shape (evenodd.py lines
272-307): run `rem` more iterations starting at iteration index `t`; each
iteration first records the scalar loss of the current state
(`loss_list.append`, line 293), then applies the optimizer/scheduler/clamp
step.  Returns the recorded loss trajectory and the final state.  There is
no early exit of any kind. -/
def stageLoop {σ : Type} (step : ℕ → σ → σ) (lossOf : σ → ℚ) :
    ℕ → ℕ → σ → List ℚ × σ
  | _, 0, s => ([], s)
  | t, Nat.succ rem, s =>
      let res := stageLoop step lossOf (t + 1) rem (step t s)
      (lossOf s :: res.1, res.2)

/-- The state reached after `i` iterations when iterating `step` starting
at iteration index `t` (the state machine underlying `stageLoop`). -/
def iterFromN {σ : Type} (step : ℕ → σ → σ) : ℕ → ℕ → σ → σ
  | _, 0, s => s
  | t, Nat.succ i, s => iterFromN step (t + 1) i (step t s)

lemma stageLoop_length {σ : Type} (step : ℕ → σ → σ) (lossOf : σ → ℚ)
    (rem t : ℕ) (s : σ) : (stageLoop step lossOf t rem s).1.length = rem := by
  induction rem generalizing t s with
  | zero => rfl
  | succ r ih => simpa [stageLoop] using ih (t + 1) (step t s)

lemma stageLoop_getD {σ : Type} (step : ℕ → σ → σ) (lossOf : σ → ℚ)
    (rem : ℕ) : ∀ t s i, i < rem →
    (stageLoop step lossOf t rem s).1.getD i 0 =
      lossOf (iterFromN step t i s) := by
  induction rem with
  | zero => intro t s i hi; omega
  | succ r ih =>
      intro t s i hi
      cases i with
      | zero => rfl
      | succ j =>
          have := ih (t + 1) (step t s) j (by omega)
          simpa [stageLoop, iterFromN] using this

/-- C8: the optimization loop of a stage runs exactly the configured
number `T` of iterations — no early stopping — and the recorded loss
trajectory has exactly `T` entries, the `i`-th being the loss of the state
reached after `i` optimizer steps (iteration order). -/
theorem stage_loss_trajectory {σ : Type} (step : ℕ → σ → σ) (lossOf : σ → ℚ)
    (T : ℕ) (s0 : σ) (i : ℕ) (hi : i < T) :
    (stageLoop step lossOf 0 T s0).1.length = T ∧
    (stageLoop step lossOf 0 T s0).1.getD i 0 =
      lossOf (iterFromN step 0 i s0) :=
  ⟨stageLoop_length step lossOf T 0 s0, stageLoop_getD step lossOf T 0 s0 i hi⟩

/-- Concrete instantiation of `stage_loss_trajectory`: states are `ℚ`,
`step t x = x + t`, five iterations, third loss value. -/
theorem stage_loss_trajectory_witness :
    (2 < 5) ∧
    ((stageLoop (fun t x => x + (t : ℚ)) (fun x => x * x) 0 5 (3 : ℚ)).1.length = 5 ∧
    (stageLoop (fun t x => x + (t : ℚ)) (fun x => x * x) 0 5 (3 : ℚ)).1.getD 2 0 =
      (fun x => x * x) (iterFromN (fun t x => x + (t : ℚ)) 0 2 (3 : ℚ))) :=
  ⟨by decide, stage_loss_trajectory (fun t x => x + (t : ℚ)) (fun x => x * x) 5 3 2
    (by decide)⟩

/-- The order realized by `torch.sort(·, dim=0, descending=True)` on the
flattened pooled grid (evenodd.py line 126), read on indices: `i` comes
before `j` when its value is larger, or the values are equal and
`i ≤ j`.  `torch.sort` leaves the relative order of equal values
unspecified; ties are fixed here to ascending index order (the stable
descending sort the design document adopts for reproducibility). -/
def sortKey (v : ℕ → ℚ) (i j : ℕ) : Prop := v j < v i ∨ (v i = v j ∧ i ≤ j)

instance sortKeyDecidable (v : ℕ → ℚ) : DecidableRel (sortKey v) := fun i j => by
  unfold sortKey
  infer_instance

instance sortKeyTotal (v : ℕ → ℚ) : IsTotal ℕ (sortKey v) := ⟨by
  intro i j
  rcases lt_trichotomy (v i) (v j) with h | h | h
  · exact Or.inr (Or.inl h)
  · rcases le_total i j with hij | hij
    · exact Or.inl (Or.inr ⟨h, hij⟩)
    · exact Or.inr (Or.inr ⟨h.symm, hij⟩)
  · exact Or.inl (Or.inl h)⟩

instance sortKeyTrans (v : ℕ → ℚ) : IsTrans ℕ (sortKey v) := ⟨by
  intro a b c hab hbc
  rcases hab with h1 | ⟨e1, l1⟩ <;> rcases hbc with h2 | ⟨e2, l2⟩
  · exact Or.inl (h2.trans h1)
  · exact Or.inl (by rw [← e2]; exact h1)
  · exact Or.inl (by rw [e1]; exact h2)
  · exact Or.inr ⟨e1.trans e2, l1.trans l2⟩⟩

/-- The index output of `torch.sort(region_loss.reshape(-1), dim=0,
descending=True)` (line 126), modelled as a sort of the index range by
`sortKey`. -/
def torchSortIdxDesc (n : ℕ) (v : ℕ → ℚ) : List ℕ :=
  List.insertionSort (sortKey v) (List.range n)

/-- `indices = indices[:num_paths]` (line 127). -/
def selectTopK (n k : ℕ) (v : ℕ → ℚ) : List ℕ := (torchSortIdxDesc n v).take k

/-- `region_loss.reshape(-1)` (line 126): row-major flattening of a
`p × p` grid. -/
def flattenGrid (p : ℕ) (g : ℕ → ℕ → ℚ) (idx : ℕ) : ℚ := g (idx / p) (idx % p)

/-- `region_loss = adaptive_avg_pool2d(pixel_loss, args.pool_size)`
(line 125), flattened for sorting. -/
def regionFlat (H W p : ℕ) (pixel : ℕ → ℕ → ℚ) : ℕ → ℚ :=
  flattenGrid p (adaptive_avg_pool2d H W p p pixel)

/-- Lines 128-133: `indices_h = idx div p` (trunc), `indices_w = idx mod p`,
concatenated in `[w, h]` order, then `(· + 0.5) / p`. -/
def norm_postion (p : ℕ) (idx : ℕ) : ℚ × ℚ :=
  (((idx % p : ℕ) + (1 : ℚ)/2) / (p : ℚ), ((idx / p : ℕ) + (1 : ℚ)/2) / (p : ℚ))

/-- The whole list of normalized target positions for one stage. -/
def normPosList (p : ℕ) (sel : List ℕ) : List (ℚ × ℚ) := sel.map (norm_postion p)

/-- `points.mean(dim=0, keepdim=True)` (line 169): the centroid. -/
def meanPt (pts : List (ℚ × ℚ)) : ℚ × ℚ :=
  ((pts.map Prod.fst).sum / (pts.length : ℚ),
   (pts.map Prod.snd).sum / (pts.length : ℚ))

/-- `points = points - points.mean(dim=0, keepdim=True) + norm_postion[i]`
(line 169). -/
def recenterPts (pts : List (ℚ × ℚ)) (t : ℚ × ℚ) : List (ℚ × ℚ) :=
  pts.map (fun q => (q.1 - (meanPt pts).1 + t.1, q.2 - (meanPt pts).2 + t.2))

/-- `points[:, 0] *= canvas_width; points[:, 1] *= canvas_height`
(lines 171-172), applied after the recentering of line 169. -/
def scalePts (pts : List (ℚ × ℚ)) (w h : ℚ) : List (ℚ × ℚ) :=
  pts.map (fun q => (q.1 * w, q.2 * h))

lemma sum_map_recenter (l : List (ℚ × ℚ)) (f : ℚ × ℚ → ℚ) (m c : ℚ) :
    (l.map (fun q => f q - m + c)).sum = (l.map f).sum + l.length * (c - m) := by
  induction l with
  | nil => simp
  | cons a l ih =>
      simp only [List.map_cons, List.sum_cons, ih, List.length_cons]
      push_cast
      ring

lemma meanPt_recenterPts (pts : List (ℚ × ℚ)) (t : ℚ × ℚ) (h : pts ≠ []) :
    meanPt (recenterPts pts t) = t := by
  have hn : (pts.length : ℚ) ≠ 0 :=
    Nat.cast_ne_zero.mpr (List.length_pos.mpr h).ne'
  obtain ⟨t1, t2⟩ := t
  have h1 : ((recenterPts pts (t1, t2)).map Prod.fst).sum =
      (pts.map Prod.fst).sum + pts.length * (t1 - (meanPt pts).1) := by
    unfold recenterPts
    rw [List.map_map]
    exact sum_map_recenter pts Prod.fst (meanPt pts).1 t1
  have h2 : ((recenterPts pts (t1, t2)).map Prod.snd).sum =
      (pts.map Prod.snd).sum + pts.length * (t2 - (meanPt pts).2) := by
    unfold recenterPts
    rw [List.map_map]
    exact sum_map_recenter pts Prod.snd (meanPt pts).2 t2
  have hlen : (recenterPts pts (t1, t2)).length = pts.length :=
    List.length_map _ _
  have hm1 : (meanPt pts).1 = (pts.map Prod.fst).sum / (pts.length : ℚ) := rfl
  have hm2 : (meanPt pts).2 = (pts.map Prod.snd).sum / (pts.length : ℚ) := rfl
  show (((recenterPts pts (t1, t2)).map Prod.fst).sum /
      ((recenterPts pts (t1, t2)).length : ℚ),
    ((recenterPts pts (t1, t2)).map Prod.snd).sum /
      ((recenterPts pts (t1, t2)).length : ℚ)) = (t1, t2)
  rw [hlen, h1, h2, hm1, hm2, Prod.mk.injEq]
  constructor <;> field_simp

lemma selectTopK_length (n k : ℕ) (v : ℕ → ℚ) (hk : k ≤ n) :
    (selectTopK n k v).length = k := by
  unfold selectTopK torchSortIdxDesc
  rw [List.length_take,
    (List.perm_insertionSort (sortKey v) (List.range n)).length_eq,
    List.length_range]
  exact min_eq_left hk

lemma selectTopK_mem_lt (n k : ℕ) (v : ℕ → ℚ) (a : ℕ)
    (ha : a ∈ selectTopK n k v) : a < n := by
  have h1 : a ∈ torchSortIdxDesc n v := List.take_subset _ _ ha
  have h2 : a ∈ List.range n :=
    (List.perm_insertionSort (sortKey v) (List.range n)).mem_iff.mp h1
  exact List.mem_range.mp h2

lemma selectTopK_beats (n k : ℕ) (v : ℕ → ℚ) (a b : ℕ)
    (ha : a ∈ selectTopK n k v) (hb : b < n) (hb2 : b ∉ selectTopK n k v) :
    v b < v a ∨ (v a = v b ∧ a < b) := by
  have hsorted : List.Sorted (sortKey v) (torchSortIdxDesc n v) :=
    List.sorted_insertionSort (sortKey v) (List.range n)
  have hbmem : b ∈ torchSortIdxDesc n v :=
    (List.perm_insertionSort (sortKey v) (List.range n)).mem_iff.mpr
      (List.mem_range.mpr hb)
  have hb3 : b ∈ (torchSortIdxDesc n v).take k ++ (torchSortIdxDesc n v).drop k := by
    rw [List.take_append_drop]
    exact hbmem
  have hbdrop : b ∈ (torchSortIdxDesc n v).drop k := by
    rcases List.mem_append.mp hb3 with h | h
    · exact absurd h hb2
    · exact h
  have hpairwise : List.Pairwise (sortKey v)
      ((torchSortIdxDesc n v).take k ++ (torchSortIdxDesc n v).drop k) := by
    rw [List.take_append_drop]
    exact hsorted
  have hab : sortKey v a b :=
    (List.pairwise_append.mp hpairwise).2.2 a ha b hbdrop
  have hne : a ≠ b := fun e => hb2 (e ▸ ha)
  rcases hab with h | ⟨h1', h2'⟩
  · exact Or.inl h
  · exact Or.inr ⟨h1', lt_of_le_of_ne h2' hne⟩

/-- C2: with an ErrorMap present and `k ≤ pool_size²`, the initializer
selects exactly `k` pooled cells, all in range, each selected cell beating
every unselected cell (strictly larger pooled value, or equal value and
smaller row-major index); the selected flat index is converted to
normalized coordinates `((idx mod p + ½)/p, (idx div p + ½)/p)` in
`(w,h)` order; and recentering moves the new shape's centroid exactly onto
the target coordinate (the canvas scaling of lines 171-172 happens only
afterwards). -/
theorem error_guided_placement (H W p k : ℕ) (pixel : ℕ → ℕ → ℚ)
    (pts : List (ℚ × ℚ)) (hk : k ≤ p * p) (hpts : pts ≠ []) :
    (selectTopK (p * p) k (regionFlat H W p pixel)).length = k ∧
    (∀ a ∈ selectTopK (p * p) k (regionFlat H W p pixel), a < p * p) ∧
    (∀ a ∈ selectTopK (p * p) k (regionFlat H W p pixel),
      ∀ b, b < p * p → b ∉ selectTopK (p * p) k (regionFlat H W p pixel) →
        regionFlat H W p pixel b < regionFlat H W p pixel a ∨
          (regionFlat H W p pixel a = regionFlat H W p pixel b ∧ a < b)) ∧
    (∀ idx, norm_postion p idx =
      (((idx % p : ℕ) + (1 : ℚ)/2) / (p : ℚ),
       ((idx / p : ℕ) + (1 : ℚ)/2) / (p : ℚ))) ∧
    (∀ t : ℚ × ℚ, meanPt (recenterPts pts t) = t) :=
  ⟨selectTopK_length (p * p) k _ hk,
   fun a ha => selectTopK_mem_lt (p * p) k _ a ha,
   fun a ha b hb hb2 => selectTopK_beats (p * p) k _ a b ha hb hb2,
   fun _ => rfl,
   fun t => meanPt_recenterPts pts t hpts⟩

/-- Concrete instantiation of `error_guided_placement`: 2×2 canvas pooled
to 2×2, two requested paths, a one-point shape. -/
theorem error_guided_placement_witness :
    (2 ≤ 2 * 2) ∧ ([((0 : ℚ), (0 : ℚ))] ≠ []) ∧
    ((selectTopK (2 * 2) 2 (regionFlat 2 2 2 (fun i j => (i * 2 + j : ℚ)))).length = 2 ∧
    (∀ a ∈ selectTopK (2 * 2) 2 (regionFlat 2 2 2 (fun i j => (i * 2 + j : ℚ))), a < 2 * 2) ∧
    (∀ a ∈ selectTopK (2 * 2) 2 (regionFlat 2 2 2 (fun i j => (i * 2 + j : ℚ))),
      ∀ b, b < 2 * 2 → b ∉ selectTopK (2 * 2) 2 (regionFlat 2 2 2 (fun i j => (i * 2 + j : ℚ))) →
        regionFlat 2 2 2 (fun i j => (i * 2 + j : ℚ)) b <
          regionFlat 2 2 2 (fun i j => (i * 2 + j : ℚ)) a ∨
          (regionFlat 2 2 2 (fun i j => (i * 2 + j : ℚ)) a =
            regionFlat 2 2 2 (fun i j => (i * 2 + j : ℚ)) b ∧ a < b)) ∧
    (∀ idx, norm_postion 2 idx =
      (((idx % 2 : ℕ) + (1 : ℚ)/2) / (2 : ℚ),
       ((idx / 2 : ℕ) + (1 : ℚ)/2) / (2 : ℚ))) ∧
    (∀ t : ℚ × ℚ, meanPt (recenterPts [((0 : ℚ), (0 : ℚ))] t) = t)) :=
  ⟨by decide, by decide,
   error_guided_placement 2 2 2 2 (fun i j => (i * 2 + j : ℚ))
     [((0 : ℚ), (0 : ℚ))] (by decide) (by decide)⟩

/-- The path-creation loop of `init_new_paths` with an ErrorMap present
(lines 137-185), restricted to placement: iteration `i` reads
`norm_postion[i]` (line 169) — an out-of-range tensor index raises an
uncaught IndexError, modelled by `none` — recenters the freshly generated
points `gen i` on it, and scales by the canvas size (lines 171-172).
`rem` counts the remaining iterations of `range(num_paths)`. -/
def placeLoop (npos : List (ℚ × ℚ)) (gen : ℕ → List (ℚ × ℚ)) (w h : ℚ) :
    ℕ → ℕ → Option (List (List (ℚ × ℚ)))
  | _, 0 => some []
  | i, Nat.succ rem =>
      (npos[i]?).bind (fun t =>
        (placeLoop npos gen w h (i + 1) rem).map
          (fun rest => scalePts (recenterPts (gen i) t) w h :: rest))

/-- `init_new_paths` when `pixel_loss is not None` (lines 124-185): sort
the pooled cells, keep the first `num_paths`, convert them to normalized
positions, then run the creation loop over `range(num_paths)`. -/
def initNewPathsPlaced (k p : ℕ) (v : ℕ → ℚ) (gen : ℕ → List (ℚ × ℚ))
    (w h : ℚ) : Option (List (List (ℚ × ℚ))) :=
  placeLoop (normPosList p (selectTopK (p * p) k v)) gen w h 0 k

/-- One stage as the controller runs it (lines 240, 272-293): the
initializer is invoked first; the optimizer loop and its loss trajectory
exist only if initialization returned normally. -/
def stageOutputWithInit {σ : Type} (k p : ℕ) (v : ℕ → ℚ)
    (gen : ℕ → List (ℚ × ℚ)) (w h : ℚ) (mkState : List (List (ℚ × ℚ)) → σ)
    (step : ℕ → σ → σ) (lossOf : σ → ℚ) (T : ℕ) : Option (List ℚ) :=
  (initNewPathsPlaced k p v gen w h).map
    (fun nps => (stageLoop step lossOf 0 T (mkState nps)).1)

lemma placeLoop_eq_none (npos : List (ℚ × ℚ)) (gen : ℕ → List (ℚ × ℚ))
    (w h : ℚ) : ∀ rem i, 1 ≤ rem → npos.length < i + rem →
    placeLoop npos gen w h i rem = none := by
  intro rem
  induction rem with
  | zero => intro i h1 _; exact absurd h1 (by omega)
  | succ r ih =>
      intro i _ h2
      by_cases hi : npos.length ≤ i
      · have hnone : npos[i]? = none := List.getElem?_eq_none hi
        show (npos[i]?).bind _ = none
        rw [hnone]
        rfl
      · have hr : 1 ≤ r := by omega
        have hrec := ih (i + 1) hr (by omega)
        show (npos[i]?).bind _ = none
        obtain ⟨t, ht⟩ : ∃ t, npos[i]? = some t :=
          ⟨_, List.getElem?_eq_getElem (by omega)⟩
        rw [ht]
        show (placeLoop npos gen w h (i + 1) r).map _ = none
        rw [hrec]
        rfl

/-- C3: if an ErrorMap is supplied and the requested new-shape count
exceeds the number of pooled cells `p²`, the initializer fails (the
out-of-range read of `norm_postion[i]` at `i = p²`) and the stage produces
no loss trajectory: the failure happens before any optimizer iteration. -/
theorem too_many_paths_aborts {σ : Type} (k p : ℕ) (v : ℕ → ℚ)
    (gen : ℕ → List (ℚ × ℚ)) (w h : ℚ) (mkState : List (List (ℚ × ℚ)) → σ)
    (step : ℕ → σ → σ) (lossOf : σ → ℚ) (T : ℕ) (hk : p * p < k) :
    initNewPathsPlaced k p v gen w h = none ∧
    stageOutputWithInit k p v gen w h mkState step lossOf T = none := by
  have hlen : (normPosList p (selectTopK (p * p) k v)).length = p * p := by
    unfold normPosList
    rw [List.length_map]
    unfold selectTopK torchSortIdxDesc
    rw [List.length_take,
      (List.perm_insertionSort (sortKey v) (List.range (p * p))).length_eq,
      List.length_range]
    exact min_eq_right (le_of_lt hk)
  have h0 : initNewPathsPlaced k p v gen w h = none := by
    unfold initNewPathsPlaced
    exact placeLoop_eq_none _ gen w h k 0 (by omega) (by rw [hlen]; omega)
  refine ⟨h0, ?_⟩
  unfold stageOutputWithInit
  rw [h0]
  rfl

/-- Concrete instantiation of `too_many_paths_aborts`: two paths requested
with a 1×1 pooled grid. -/
theorem too_many_paths_aborts_witness :
    (1 * 1 < 2) ∧
    (initNewPathsPlaced 2 1 (fun _ => (0 : ℚ)) (fun _ => []) 1 1 = none ∧
    stageOutputWithInit 2 1 (fun _ => (0 : ℚ)) (fun _ => []) 1 1
      (fun _ => ()) (fun _ s => s) (fun _ => 0) 3 = none) :=
  ⟨by decide, too_many_paths_aborts 2 1 (fun _ => (0 : ℚ)) (fun _ => []) 1 1
    (fun _ => ()) (fun _ s => s) (fun _ => 0) 3 (by decide)⟩

/-- `torch.softmax` over the flattened `n`-element grid (line 319),
parametrized by the exponential `e` (any strictly positive function; the
results below depend only on positivity of `exp`). -/
def softmaxFlat (e : ℚ → ℚ) (n : ℕ) (f : ℕ → ℚ) (i : ℕ) : ℚ :=
  e (f i) / ∑ j ∈ Finset.range n, e (f j)

/-- `F.interpolate(loss_weight, size=[H,W], mode='area')` applied to the
softmaxed pooled grid (lines 319-322): the `p × p` softmax output,
indexed row-major as in `reshape_as`, upsampled back to the canvas by
area (adaptive average) interpolation. -/
def upsampledWeight (e : ℚ → ℚ) (H W p : ℕ) (pixel : ℕ → ℕ → ℚ) : ℕ → ℕ → ℚ :=
  adaptive_avg_pool2d p p H W
    (fun a b => softmaxFlat e (p * p) (regionFlat H W p pixel) (a * p + b))

/-- `loss_weight = loss_weight / loss_weight.sum()` (line 323): the
per-pixel loss-weight map handed (detached, line 324) to the next stage. -/
def lossWeightMap (e : ℚ → ℚ) (H W p : ℕ) (pixel : ℕ → ℕ → ℚ) (i j : ℕ) : ℚ :=
  upsampledWeight e H W p pixel i j /
    ∑ r ∈ Finset.range H, ∑ c ∈ Finset.range W, upsampledWeight e H W p pixel r c

lemma poolStart_lt_poolEnd {I O : ℕ} (hI : 0 < I) (hO : 0 < O) (i : ℕ) :
    poolStart I O i < poolEnd I O i := by
  unfold poolStart poolEnd
  have h1 : i * I + O ≤ (i + 1) * I + O - 1 := by
    have h : (i + 1) * I = i * I + I := by ring
    omega
  have h2 : (i * I + O) / O ≤ ((i + 1) * I + O - 1) / O :=
    Nat.div_le_div_right h1
  rw [Nat.add_div_right _ hO] at h2
  omega

lemma poolRegion_nonempty {I O : ℕ} (hI : 0 < I) (hO : 0 < O) (i : ℕ) :
    (poolRegion I O i).Nonempty :=
  Finset.nonempty_Ico.mpr (poolStart_lt_poolEnd hI hO i)

lemma adaptive_pool_pos {H W oh ow : ℕ} (hH : 0 < H) (hW : 0 < W)
    (hoh : 0 < oh) (how : 0 < ow) (f : ℕ → ℕ → ℚ) (hf : ∀ r c, 0 < f r c)
    (i j : ℕ) : 0 < adaptive_avg_pool2d H W oh ow f i j := by
  unfold adaptive_avg_pool2d
  apply div_pos
  · exact Finset.sum_pos
      (fun r _ => Finset.sum_pos (fun c _ => hf r c) (poolRegion_nonempty hW how j))
      (poolRegion_nonempty hH hoh i)
  · have c1 : 0 < (poolRegion H oh i).card :=
      Finset.card_pos.mpr (poolRegion_nonempty hH hoh i)
    have c2 : 0 < (poolRegion W ow j).card :=
      Finset.card_pos.mpr (poolRegion_nonempty hW how j)
    exact_mod_cast Nat.mul_pos c1 c2

lemma softmaxFlat_pos {e : ℚ → ℚ} (he : ∀ x, 0 < e x) {n : ℕ} (hn : 0 < n)
    (f : ℕ → ℚ) (i : ℕ) : 0 < softmaxFlat e n f i :=
  div_pos (he _)
    (Finset.sum_pos (fun _ _ => he _) (Finset.nonempty_range_iff.mpr hn.ne'))

/-- C4: after every ErrorMap update, the per-pixel loss-weight map used by
the next stage is non-negative at every pixel and its entries sum to
exactly 1 over the canvas (the floating-point computation only carries a
rounding tolerance; in exact arithmetic the sum is 1), for any strictly
positive exponential and any pixel-loss input. -/
theorem loss_weight_normalized (e : ℚ → ℚ) (H W p : ℕ) (pixel : ℕ → ℕ → ℚ)
    (hH : 0 < H) (hW : 0 < W) (hp : 0 < p) (he : ∀ x, 0 < e x) :
    (∀ i j, 0 ≤ lossWeightMap e H W p pixel i j) ∧
    (∑ i ∈ Finset.range H, ∑ j ∈ Finset.range W,
      lossWeightMap e H W p pixel i j) = 1 := by
  have hup : ∀ i j, 0 < upsampledWeight e H W p pixel i j := fun i j =>
    adaptive_pool_pos hp hp hH hW _
      (fun a b => softmaxFlat_pos he (Nat.mul_pos hp hp) _ _) i j
  have hsum : 0 < ∑ r ∈ Finset.range H, ∑ c ∈ Finset.range W,
      upsampledWeight e H W p pixel r c :=
    Finset.sum_pos
      (fun r _ => Finset.sum_pos (fun c _ => hup r c)
        (Finset.nonempty_range_iff.mpr hW.ne'))
      (Finset.nonempty_range_iff.mpr hH.ne')
  constructor
  · intro i j
    exact le_of_lt (div_pos (hup i j) hsum)
  · unfold lossWeightMap
    simp only [← Finset.sum_div]
    exact div_self (ne_of_gt hsum)

/-- Concrete instantiation of `loss_weight_normalized`: 1×1 canvas, 1×1
pool, constant exponential. -/
theorem loss_weight_normalized_witness :
    ((0 < 1) ∧ (0 < 1) ∧ (0 < 1) ∧ (∀ x : ℚ, 0 < (fun _ : ℚ => (1 : ℚ)) x)) ∧
    ((∀ i j, 0 ≤ lossWeightMap (fun _ => 1) 1 1 1 (fun _ _ => 0) i j) ∧
    (∑ i ∈ Finset.range 1, ∑ j ∈ Finset.range 1,
      lossWeightMap (fun _ => 1) 1 1 1 (fun _ _ => 0) i j) = 1) :=
  ⟨⟨by decide, by decide, by decide, fun _ => by norm_num⟩,
   loss_weight_normalized (fun _ => 1) 1 1 1 (fun _ _ => 0)
     (by decide) (by decide) (by decide) (fun _ => by norm_num)⟩

/-- `(img - target) ** 2` per channel (part of line 317), for the
composited final render and the target, over `ℝ` since line 317 takes an
exact square root. -/
def chanSqDiff (img target : ℕ → ℕ → Fin 3 → ℝ) (i j : ℕ) (c : Fin 3) : ℝ :=
  (img i j c - target i j c) ^ 2

/-- `.sum(dim=1, keepdim=True)` (line 317): the per-pixel channel sum,
one value per pixel (the `[1,1,H,W]` map). -/
def chanSumSq (img target : ℕ → ℕ → Fin 3 → ℝ) (i j : ℕ) : ℝ :=
  ∑ c : Fin 3, chanSqDiff img target i j c

/-- `pixel_loss = ((img-target)**2).sum(dim=1, keepdim=True).sqrt_()`
(line 317): the in-place square root is applied to the stored map
itself, before anything else uses it. -/
noncomputable def pixel_loss (img target : ℕ → ℕ → Fin 3 → ℝ) (i j : ℕ) : ℝ :=
  Real.sqrt (chanSumSq img target i j)

/-- `region_loss = adaptive_avg_pool2d(pixel_loss, args.pool_size)`
(line 318): the pooled grid used for next-stage placement (line 241)
and weighting (line 319). -/
noncomputable def region_loss (H W p : ℕ) (img target : ℕ → ℕ → Fin 3 → ℝ) :
    ℕ → ℕ → ℝ :=
  adaptive_avg_pool2d H W p p (pixel_loss img target)

/-- The residual C5 claims is stored and pooled: the channel sum of
squared differences with no square root (spec-side definition, for
comparison with `pixel_loss`). -/
def claimedResidual (img target : ℕ → ℕ → Fin 3 → ℝ) (i j : ℕ) : ℝ :=
  chanSumSq img target i j

/-- A concrete all-black render. -/
def exImg : ℕ → ℕ → Fin 3 → ℝ := fun _ _ _ => 0

/-- A concrete target whose red channel is 2 (after the `pow(gamma)`
normalization this is out of gamut, but nothing in lines 317-318 assumes
otherwise; any pixel with channel-sum ≠ 0, 1 works the same way). -/
def exTgt : ℕ → ℕ → Fin 3 → ℝ := fun _ _ c => if c = 0 then 2 else 0

lemma exChanSumSq : chanSumSq exImg exTgt 0 0 = 4 := by
  unfold chanSumSq chanSqDiff exImg exTgt
  rw [Fin.sum_univ_three]
  rw [if_pos rfl, if_neg (by decide : ¬(1 : Fin 3) = 0),
    if_neg (by decide : ¬(2 : Fin 3) = 0)]
  norm_num

lemma exPixelLoss : pixel_loss exImg exTgt 0 0 = 2 := by
  unfold pixel_loss
  rw [exChanSumSq, show (4 : ℝ) = 2 ^ 2 by norm_num,
    Real.sqrt_sq (by norm_num : (0 : ℝ) ≤ 2)]

/-- C5 counterexample: on a 1×1 canvas with a 1×1 pool, the quantity the
code pools into the region-loss grid is `√4 = 2`, not the channel-sum of
squared differences `4`: the square root of line 317 is applied to the
stored/pooled residual, not only to a display copy. -/
theorem residual_sqrt_counterexample :
    region_loss 1 1 1 exImg exTgt 0 0 ≠ claimedResidual exImg exTgt 0 0 ∧
    pixel_loss exImg exTgt 0 0 = 2 ∧
    claimedResidual exImg exTgt 0 0 = 4 := by
  have hregion : region_loss 1 1 1 exImg exTgt 0 0 = 2 := by
    unfold region_loss adaptive_avg_pool2d
    have hpr : poolRegion 1 1 0 = Finset.range 1 := by
      unfold poolRegion poolStart poolEnd
      norm_num [Nat.Ico_zero_eq_range]
    rw [hpr]
    norm_num [Finset.sum_range_one, exPixelLoss]
  refine ⟨?_, exPixelLoss, by rw [claimedResidual, exChanSumSq]⟩
  rw [hregion, claimedResidual, exChanSumSq]
  norm_num

/-- C5 amended: the per-pixel residual stored in the ErrorMap and pooled
into the region-loss grid is, at every pixel, the non-negative square
root of the channel sum of squared differences between the final render
and the target (the Euclidean channel distance), not that sum itself. -/
theorem residual_is_l2_norm (img target : ℕ → ℕ → Fin 3 → ℝ) (i j : ℕ) :
    0 ≤ pixel_loss img target i j ∧
    pixel_loss img target i j ^ 2 =
      ∑ c : Fin 3, (img i j c - target i j c) ^ 2 := by
  constructor
  · exact Real.sqrt_nonneg _
  · unfold pixel_loss
    rw [Real.sq_sqrt]
    · rfl
    · exact Finset.sum_nonneg (fun c _ => sq_nonneg _)

/-- One jitter of random-mode initialization (lines 147-150): each
coordinate moves by `radius * (random() - 0.5)` with `radius = 0.05`.
`rnd` is the stream of the seeded `random.random()` values, `c` the
position in the stream. -/
def jitterPt (rnd : ℕ → ℚ) (c : ℕ) (p : ℚ × ℚ) : ℚ × ℚ :=
  (p.1 + 1/20 * (rnd c - 1/2), p.2 + 1/20 * (rnd (c + 1) - 1/2))

/-- The segment loop of random-mode initialization (lines 146-155): every
segment appends `p1, p2`; every segment except the last also appends `p3`
and chains from it. -/
def randomSegs (rnd : ℕ → ℚ) : ℕ → ℕ → ℚ × ℚ → List (ℚ × ℚ)
  | 0, _, _ => []
  | 1, c, p0 =>
      [jitterPt rnd c p0, jitterPt rnd (c + 2) (jitterPt rnd c p0)]
  | Nat.succ (Nat.succ m), c, p0 =>
      let p1 := jitterPt rnd c p0
      let p2 := jitterPt rnd (c + 2) p1
      let p3 := jitterPt rnd (c + 4) p2
      p1 :: p2 :: p3 :: randomSegs rnd (m + 1) (c + 6) p3

/-- Random-mode point initialization (lines 142-156): a uniformly sampled
start point followed by the jittered segment chain. -/
def randomModePoints (n : ℕ) (rnd : ℕ → ℚ) : List (ℚ × ℚ) :=
  (rnd 0, rnd 1) :: randomSegs rnd n 2 (rnd 0, rnd 1)

/-- `4/3 * tan(pi / (2*segments))`: the control-point angular offset of
`get_bezier_circle` (lines 60-61); `np.degrees ∘ np.deg2rad = id`, so the
angles are kept in radians. -/
noncomputable def m1AngleOff (s : ℕ) : ℝ := 4/3 * Real.tan (Real.pi / (2 * s))

/-- `sqrt(1 + (4/3 * tan(pi/(2*segments)))^2)` (line 61). -/
noncomputable def m1Radius (s : ℕ) : ℝ :=
  Real.sqrt (1 + (4/3 * Real.tan (Real.pi / (2 * s))) ^ 2)

/-- `360/segments` in radians (line 62). -/
noncomputable def segAngle (s : ℕ) : ℝ := 2 * Real.pi / s

/-- The three control points appended for segment `i` by the loop of
`get_bezier_circle` (lines 63-73): `m1_point`, `m2_point`, `m3_point`. -/
noncomputable def circleSegPts (s i : ℕ) : List (ℝ × ℝ) :=
  [(m1Radius s * Real.cos (i * segAngle s + m1AngleOff s),
    m1Radius s * Real.sin (i * segAngle s + m1AngleOff s)),
   (m1Radius s * Real.cos (i * segAngle s + (segAngle s - m1AngleOff s)),
    m1Radius s * Real.sin (i * segAngle s + (segAngle s - m1AngleOff s))),
   (Real.cos (i * segAngle s + segAngle s),
    Real.sin (i * segAngle s + segAngle s))]

/-- `get_bezier_circle` (lines 54-79): start at `(1,0)`, append three
control points per segment, reverse, drop the last point, then scale by
the radius and translate by the bias. -/
noncomputable def get_bezier_circle (radius : ℝ) (segments : ℕ)
    (bias : ℝ × ℝ) : List (ℝ × ℝ) :=
  (((((1 : ℝ), (0 : ℝ)) ::
      ((List.range segments).map (circleSegPts segments)).flatten).reverse).dropLast).map
    (fun q => (q.1 * radius + bias.1, q.2 * radius + bias.2))

/-- The shape record `pydiffvg.Path` receives (lines 173-176). -/
structure PathM (α : Type) where
  num_control_points : List ℕ
  points : List (α × α)
  stroke_width : ℚ
  is_closed : Bool

/-- `num_control_points = torch.zeros(num_segments, dtype=int32) + 2`
(line 139). -/
def numControlPoints (n : ℕ) : List ℕ := List.replicate n 2

/-- The `Path` built for a random-mode shape (lines 139-176). -/
def mkRandomPath (n : ℕ) (rnd : ℕ → ℚ) : PathM ℚ :=
  ⟨numControlPoints n, randomModePoints n rnd, 1, true⟩

/-- The `Path` built for a circle-mode shape (lines 139, 159-176). -/
noncomputable def mkCirclePath (n : ℕ) (radius : ℝ) (bias : ℝ × ℝ) : PathM ℝ :=
  ⟨numControlPoints n, get_bezier_circle radius n bias, 1, true⟩

lemma randomSegs_length (rnd : ℕ → ℚ) :
    ∀ n c p0, 1 ≤ n → (randomSegs rnd n c p0).length = 3 * n - 1 := by
  intro n
  induction n with
  | zero => intro c p0 h; exact absurd h (by omega)
  | succ m ih =>
      intro c p0 _
      cases m with
      | zero => rfl
      | succ m' =>
          show (_ :: _ :: _ :: randomSegs rnd (m' + 1) (c + 6) _).length = _
          rw [List.length_cons, List.length_cons, List.length_cons,
            ih (c + 6) _ (by omega)]
          omega

lemma sum_map_const_nat {α : Type} (l : List α) (k : ℕ) :
    (l.map (fun _ => k)).sum = k * l.length := by
  induction l with
  | nil => simp
  | cons a l ih =>
      simp only [List.map_cons, List.sum_cons, ih, List.length_cons]
      ring

lemma get_bezier_circle_length (radius : ℝ) (s : ℕ) (bias : ℝ × ℝ) :
    (get_bezier_circle radius s bias).length = 3 * s := by
  unfold get_bezier_circle
  rw [List.length_map, List.length_dropLast, List.length_reverse,
    List.length_cons, List.length_flatten, List.map_map]
  have h : (List.map (List.length ∘ circleSegPts s) (List.range s)) =
      (List.range s).map (fun _ => 3) :=
    List.map_congr_left (fun i _ => rfl)
  rw [h, sum_map_const_nat, List.length_range]
  omega

/-- C10: for every `num_segments ≥ 1` and both initialization modes, the
generated shape has exactly `3 * num_segments` points, its per-segment
control-point list has one entry of value 2 per segment, and the path is
marked closed — the arity the renderer requires for a closed path. -/
theorem path_arity_invariant (n : ℕ) (rnd : ℕ → ℚ) (radius : ℝ)
    (bias : ℝ × ℝ) (hn : 1 ≤ n) :
    (mkRandomPath n rnd).points.length = 3 * n ∧
    (mkCirclePath n radius bias).points.length = 3 * n ∧
    (mkRandomPath n rnd).num_control_points.length = n ∧
    (mkCirclePath n radius bias).num_control_points.length = n ∧
    (∀ c ∈ (mkRandomPath n rnd).num_control_points, c = 2) ∧
    (∀ c ∈ (mkCirclePath n radius bias).num_control_points, c = 2) ∧
    (mkRandomPath n rnd).is_closed = true ∧
    (mkCirclePath n radius bias).is_closed = true := by
  refine ⟨?_, get_bezier_circle_length radius n bias, List.length_replicate _ _,
    List.length_replicate _ _, fun c hc => List.eq_of_mem_replicate hc,
    fun c hc => List.eq_of_mem_replicate hc, rfl, rfl⟩
  show (randomModePoints n rnd).length = 3 * n
  unfold randomModePoints
  rw [List.length_cons, randomSegs_length rnd n 2 _ hn]
  omega

/-- Concrete instantiation of `path_arity_invariant`: the default
`num_segments = 4`, a zero random stream, unit radius, zero bias. -/
theorem path_arity_invariant_witness :
    (1 ≤ 4) ∧
    ((mkRandomPath 4 (fun _ => 0)).points.length = 3 * 4 ∧
    (mkCirclePath 4 1 (0, 0)).points.length = 3 * 4 ∧
    (mkRandomPath 4 (fun _ => 0)).num_control_points.length = 4 ∧
    (mkCirclePath 4 1 (0, 0)).num_control_points.length = 4 ∧
    (∀ c ∈ (mkRandomPath 4 (fun _ => 0)).num_control_points, c = 2) ∧
    (∀ c ∈ (mkCirclePath 4 1 (0, 0)).num_control_points, c = 2) ∧
    (mkRandomPath 4 (fun _ => 0)).is_closed = true ∧
    (mkCirclePath 4 1 (0, 0)).is_closed = true) :=
  ⟨by decide, path_arity_invariant 4 (fun _ => 0) 1 (0, 0) (by decide)⟩

/-- The scene as the optimizer mutates it: per-shape point lists and
per-group fill colors, kept as parallel concatenated collections. -/
structure SceneM where
  paths : List (List (ℚ × ℚ))
  colors : List (Fin 4 → ℚ)

/-- The deterministic rendering oracle (pydiffvg) together with the
gradient machinery it enables: `render` is the forward rasterization
(line 278); `update` is the parameter change effected at iteration `t` by
`loss.backward()`, the two Adam steps and the two scheduler steps
(lines 297-304), given the `--free` flag that fixed the optimizers'
parameter lists. -/
structure OracleM where
  render : SceneM → ℕ → ℕ → Fin 4 → ℚ
  update : Bool → ℕ → SceneM → SceneM

/-- `img = img[:,:,3:4] * img[:,:,:3] + ones * (1 - img[:,:,3:4])`
(line 280): compositing over an opaque white background. -/
def whiteComposite (img : ℕ → ℕ → Fin 4 → ℚ) (i j : ℕ) (c : Fin 3) : ℚ :=
  img i j 3 * img i j c.castSucc + 1 * (1 - img i j 3)

/-- The scalar training loss of lines 288-292: channel sum of squared
differences per pixel, multiplied elementwise by the loss-weight map, and
summed over the canvas. -/
def renderLoss (H W : ℕ) (weight : ℕ → ℕ → ℚ) (target : ℕ → ℕ → Fin 3 → ℚ)
    (img : ℕ → ℕ → Fin 4 → ℚ) : ℚ :=
  ∑ i ∈ Finset.range H, ∑ j ∈ Finset.range W,
    (∑ c : Fin 3, (whiteComposite img i j c - target i j c) ^ 2) * weight i j

/-- One optimizer iteration on the scene (lines 273-307): the oracle-side
update followed by the fill-color clamp of lines 306-307. -/
def oracleIterStep (oracle : OracleM) (free : Bool) (t : ℕ) (s : SceneM) :
    SceneM :=
  ⟨(oracle.update free t s).paths,
   (oracle.update free t s).colors.map (fun col ch => clampQ (col ch))⟩

/-- The path/color creation loop of `init_new_paths` (lines 137-195):
`initGen` dispatches the point-initialization mode of lines 142-164
(random chain or Bezier circle); it consumes the seeded `random.random()`
stream `rnd` from position `ctr` (returning the advanced position) and
may also read the UNSEEDED numpy global stream `npr` — circle mode with
`circle_init_radius` unset draws `np.random.uniform(0.01, 0.2)` from it
(line 162).  `place` is `none` on the first stage (no ErrorMap) and
otherwise gives the target position for each loop index (inner `none` =
out-of-range read of `norm_postion[i]`, line 169); each group's fill
color draws the next four seeded-stream values (lines 181-184). -/
def genPaths (initGen : (ℕ → ℚ) → (ℕ → ℚ) → ℕ → List (ℚ × ℚ) × ℕ)
    (rnd npr : ℕ → ℚ) (place : Option (ℕ → Option (ℚ × ℚ))) (w h : ℚ) :
    ℕ → ℕ → ℕ → Option (List (List (ℚ × ℚ)) × List (Fin 4 → ℚ) × ℕ)
  | _, 0, ctr => some ([], [], ctr)
  | i, Nat.succ rem, ctr =>
      let pr := initGen rnd npr ctr
      let placed : Option (List (ℚ × ℚ)) :=
        match place with
        | none => some pr.1
        | some f => (f i).map (fun t => recenterPts pr.1 t)
      placed.bind (fun pts =>
        (genPaths initGen rnd npr place w h (i + 1) rem (pr.2 + 4)).map
          (fun rest =>
            (scalePts pts w h :: rest.1,
             (fun ch => rnd (pr.2 + ch.val)) :: rest.2.1,
             rest.2.2)))

/-- Everything `main` fixes before the stage loop other than the seed, the
target image, the oracle and the numpy stream: the CLI configuration
(lines 33-51, 224) and the mathematical library functions (`exp` inside
`torch.softmax`, `torch.sqrt`, and the mode dispatch of
`init_new_paths`).  `initGen` receives the seeded `random` stream and the
unseeded numpy stream separately, because line 162 reads the latter. -/
structure RunConfig where
  e : ℚ → ℚ
  sq : ℚ → ℚ
  initGen : (ℕ → ℚ) → (ℕ → ℚ) → ℕ → List (ℚ × ℚ) × ℕ
  prng : ℕ → ℕ → ℚ
  poolSize : ℕ
  numIter : ℕ
  free : Bool
  numPathsList : List ℕ

/-- The stage loop of `main` (lines 235-342) at the level of everything
that determines the loss trajectories.  Stage state: scene, the previous
stage's pooled region loss (absent before stage 1, line 232), the current
loss-weight map, and the position in the seeded random stream.  Per
stage: initialize and place the new paths (lines 240-241, reading `rnd`
and, in circle mode with unset radius, the numpy stream `npr`),
concatenate (258-259), run `num_iter` loss-recording optimizer iterations
(272-307), then recompute the ErrorMap quantities from the last rendered
image (317-324).  Returns `loss_matrix` (line 312); `none` models an
uncaught exception during initialization. -/
def runStages (cfg : RunConfig) (rnd npr : ℕ → ℚ) (oracle : OracleM)
    (target : ℕ → ℕ → Fin 3 → ℚ) (H W : ℕ) :
    List ℕ → SceneM × Option (ℕ → ℕ → ℚ) × (ℕ → ℕ → ℚ) × ℕ →
    Option (List (List ℚ))
  | [], _ => some []
  | k :: rest, (scene, regionOpt, weight, ctr) =>
      let p := cfg.poolSize
      let place : Option (ℕ → Option (ℚ × ℚ)) :=
        regionOpt.map (fun rg => fun i =>
          (normPosList p (selectTopK (p * p) k
            (flattenGrid p (adaptive_avg_pool2d p p p p rg))))[i]?)
      (genPaths cfg.initGen rnd npr place (W : ℚ) (H : ℚ) 0 k ctr).bind
        (fun res =>
          let scene1 : SceneM := ⟨scene.paths ++ res.1, scene.colors ++ res.2.1⟩
          let stage := stageLoop (oracleIterStep oracle cfg.free)
            (fun s => renderLoss H W weight target (oracle.render s))
            0 cfg.numIter scene1
          let sLast := iterFromN (oracleIterStep oracle cfg.free) 0
            (cfg.numIter - 1) scene1
          let px : ℕ → ℕ → ℚ := fun i j =>
            cfg.sq (∑ c : Fin 3,
              (whiteComposite (oracle.render sLast) i j c - target i j c) ^ 2)
          (runStages cfg rnd npr oracle target H W rest
            (stage.2, some (adaptive_avg_pool2d H W p p px),
             lossWeightMap cfg.e H W p px, res.2.2)).map
            (fun more => stage.1 :: more))

/-- `main` (lines 216-344).  `random.seed(1234)` and
`torch.manual_seed(1234)` (lines 225-226) fix the seeded stream
`cfg.prng seed`, but numpy's global RNG is never seeded anywhere in the
program, so its stream `npr` is an independent input of the run (drawn
from OS entropy at process start), not a function of the seed or the
configuration.  Start: empty scene, no ErrorMap, uniform initial loss
weight `1/(W*H)` (lines 230-233). -/
def runProgram (cfg : RunConfig) (seed : ℕ) (oracle : OracleM)
    (target : ℕ → ℕ → Fin 3 → ℚ) (H W : ℕ) (npr : ℕ → ℚ) :
    Option (List (List ℚ)) :=
  runStages cfg (cfg.prng seed) npr oracle target H W cfg.numPathsList
    (⟨[], []⟩, none, (fun _ _ => 1 / ((W : ℚ) * (H : ℚ))), 0)

/-- A minimal instance of circle mode with `circle_init_radius` unset:
the generated point depends on the draw `npr ctr` from the unseeded
numpy stream, as the circle's points depend on the radius
`np.random.uniform(0.01, 0.2)` of line 162; two seeded-stream values are
consumed (the bias of line 164). -/
def exCircleInitGen : (ℕ → ℚ) → (ℕ → ℚ) → ℕ → List (ℚ × ℚ) × ℕ :=
  fun _ npr ctr => ([(npr ctr, npr ctr)], ctr + 2)

/-- A deterministic, scene-sensitive oracle: the rendered image is
constant with every channel equal to the first point's x coordinate; the
backward/Adam update is the identity. -/
def exSceneOracle : OracleM :=
  ⟨fun s _ _ _ => ((s.paths.headD []).headD (0, 0)).1, fun _ _ s => s⟩

/-- A constant black target. -/
def exTarget : ℕ → ℕ → Fin 3 → ℚ := fun _ _ _ => 0

/-- The failing configuration for C9: circle initialization with
`circle_init_radius` unset, one stage of one path, one iteration, on a
1×1 canvas. -/
def exCircleConfig : RunConfig :=
  ⟨fun _ => 1, id, exCircleInitGen, fun _ _ => 0, 1, 1, false, [1]⟩

/-- C9 (code bug): with circle initialization and `circle_init_radius`
unset, the radius is drawn from numpy's global RNG (line 162), which
`main` never seeds (lines 225-226 seed only `random` and `torch`).  Two
runs with the same seed, identical configuration, identical target and
the same deterministic oracle, differing only in the unseeded numpy
stream, record different loss trajectories — against the stated
determinism property. -/
lemma exRun_eval (q : ℚ) :
    runProgram exCircleConfig 1234 exSceneOracle exTarget 1 1 (fun _ => q) =
      some [[3 * (q * q + (1 - q)) ^ 2]] := by
  simp only [runProgram, runStages, genPaths, exCircleConfig, exCircleInitGen,
    exSceneOracle, exTarget, Option.map_none, Option.some_bind,
    Option.map_some, stageLoop, renderLoss, whiteComposite, scalePts,
    List.map_cons, List.map_nil, List.nil_append, List.headD_cons,
    oracleIterStep, Finset.sum_range_one, Fin.sum_univ_three,
    Option.some.injEq, List.cons.injEq, and_true]
  norm_num
  ring

/-- C9 demonstration (continued): the two concrete runs and their
divergence. -/
theorem circle_radius_nondeterminism :
    runProgram exCircleConfig 1234 exSceneOracle exTarget 1 1 (fun _ => 0) =
      some [[3]] ∧
    runProgram exCircleConfig 1234 exSceneOracle exTarget 1 1 (fun _ => 1/2) =
      some [[27/16]] ∧
    runProgram exCircleConfig 1234 exSceneOracle exTarget 1 1 (fun _ => 0) ≠
      runProgram exCircleConfig 1234 exSceneOracle exTarget 1 1 (fun _ => 1/2) := by
  refine ⟨?_, ?_, ?_⟩
  · rw [exRun_eval]
    norm_num
  · rw [exRun_eval]
    norm_num
  · rw [exRun_eval, exRun_eval]
    norm_num
